import Mathlib

/-!
# Verification of the eligibility-criteria extraction pipeline

Shallow embedding of the core components of the repository:

* `find_inclusion_exclusion_lists` (src/dynamic_eligibility_checker.py, lines 35-95):
  the tiered section locator over a parsed HTML tree,
* `analyze_list` (src/dynamic_eligibility_checker.py lines 98-148 and the
  identical src/automation_api.py lines 130-175): the atomic/compound classifier,
* `fetch_eligibility_html` (src/automation_api.py lines 43-83): the retrying fetcher,
* the batch result-collection loops (src/batch_compare_ncts.py lines 192-241,
  src/dynamic_eligibility_checker.py lines 250-289),
* `compare_sets` (src/batch_compare_ncts.py lines 43-57).

HTML documents parsed by BeautifulSoup are modelled as finite ordered trees of
element and text nodes.  BeautifulSoup facts used by the translation:

* `Tag` objects are always truthy (neither `__bool__` nor `__len__` is defined),
  so `if not x:` on a find result is a `None` test;
* `tag.find(...)` / `tag.find_all(...)` search the tag's descendants in
  pre-order (document order), excluding the tag itself;
* `find(name, string=f)` matches tags whose `.string` satisfies `f`; `.string`
  is the single text child, chasing through unique element children;
* `find(string=f)` (no name) matches text nodes only;
* `find_all("li", recursive=False)` returns the direct `li` element children;
* `tag.find_next_sibling()` walks the following siblings inside the same parent
  and returns `None` when the parent's children are exhausted;
* `tag.stripped_strings` yields the stripped, non-empty descendant text nodes
  in document order.
-/

/-- A node of a parsed HTML document: an element with a tag name, an attribute
list and ordered children, or a text node (a `NavigableString`). -/
inductive Node where
  | elem (tag : String) (attrs : List (String × String)) (children : List Node)
  | text (s : String)

mutual

/-- Decidable equality of nodes (the automatic derivation does not handle the
nested occurrence of `List Node`). -/
def Node.decEq : (a b : Node) → Decidable (a = b)
  | .text s, .text u =>
    if h : s = u then isTrue (by rw [h])
    else isFalse (by intro hh; cases hh; exact h rfl)
  | .text _, .elem _ _ _ => isFalse (fun hh => Node.noConfusion hh)
  | .elem _ _ _, .text _ => isFalse (fun hh => Node.noConfusion hh)
  | .elem t1 a1 c1, .elem t2 a2 c2 =>
    if h1 : t1 = t2 then
      if h2 : a1 = a2 then
        match nodeListDecEq c1 c2 with
        | isTrue h3 => isTrue (by rw [h1, h2, h3])
        | isFalse h3 => isFalse (by intro hh; injection hh with x y z; exact h3 z)
      else isFalse (by intro hh; injection hh with x y z; exact h2 y)
    else isFalse (by intro hh; injection hh with x y z; exact h1 x)

/-- Decidable equality of node lists. -/
def nodeListDecEq : (as bs : List Node) → Decidable (as = bs)
  | [], [] => isTrue rfl
  | [], _ :: _ => isFalse (fun h => List.noConfusion h)
  | _ :: _, [] => isFalse (fun h => List.noConfusion h)
  | x :: xs, y :: ys =>
    match Node.decEq x y, nodeListDecEq xs ys with
    | isTrue h1, isTrue h2 => isTrue (by rw [h1, h2])
    | isFalse h1, _ => isFalse (by intro hh; injection hh with u v; exact h1 u)
    | _, isFalse h2 => isFalse (by intro hh; injection hh with u v; exact h2 v)

end

instance : DecidableEq Node := Node.decEq

namespace Node

/-- The ordered children of a node (text nodes have none). -/
def children : Node → List Node
  | .elem _ _ cs => cs
  | .text _ => []

/-- The tag name (`tag.name`); `none` for text nodes. -/
def tagName : Node → Option String
  | .elem t _ _ => some t
  | .text _ => none

/-- Attribute lookup (`tag.get(key)` / attribute matching in `find`). -/
def attr : Node → String → Option String
  | .elem _ attrs _, k => (attrs.find? (fun p => p.1 = k)).map Prod.snd
  | .text _, _ => none

end Node

/-- A list-type node: `tag.name in ("ol", "ul")`. -/
def isListNode (n : Node) : Bool :=
  n.tagName = some "ol" || n.tagName = some "ul"

mutual

/-- The subtree of a node in pre-order: the node itself followed by the
subtrees of its children (BeautifulSoup's `[n] + list(n.descendants)`). -/
def Node.subtree : Node → List Node
  | .text s => [.text s]
  | .elem t a cs => .elem t a cs :: subtreeList cs

/-- Pre-order concatenation of the subtrees of a list of sibling nodes. -/
def subtreeList : List Node → List Node
  | [] => []
  | n :: ns => n.subtree ++ subtreeList ns

end

/-- The descendants of a node in document order (`tag.descendants`):
everything below the node, excluding the node itself. -/
def descendants (n : Node) : List Node :=
  subtreeList n.children

/-- `root.find(tag, {"id": idv})`: first descendant element with the given
tag name carrying attribute `id=idv`. -/
def findTagById (root : Node) (tagName idv : String) : Option Node :=
  (descendants root).find? (fun n =>
    n.tagName = some tagName && n.attr "id" = some idv)

/-- `root.find(["ol", "ul"])`: first descendant list-type node. -/
def findFirstList (root : Node) : Option Node :=
  (descendants root).find? isListNode

/-- `root.find_all(["ol", "ul"])`: all descendant list-type nodes in
document order. -/
def findAllLists (root : Node) : List Node :=
  (descendants root).filter isListNode

/-- Python whitespace for `str.strip()` and the regex class `\s` (ASCII part). -/
def isPyWS (c : Char) : Bool :=
  c = ' ' || c = '\t' || c = '\n' || c = '\r' || c = '\x0b' || c = '\x0c'

/-- `str.strip()` on a character list. -/
def pyStripList (cs : List Char) : List Char :=
  ((cs.dropWhile isPyWS).reverse.dropWhile isPyWS).reverse

/-- `str.strip()`. -/
def pyStrip (s : String) : String :=
  ⟨pyStripList s.data⟩

/-- Drop a literal pattern prefix from the input; `none` if it is not a prefix. -/
def dropLit : List Char → List Char → Option (List Char)
  | [], cs => some cs
  | _ :: _, [] => none
  | k :: ks, c :: cs => if c = k then dropLit ks cs else none

/-- Does the input start with `kw1`, then one or more whitespace characters,
then `kw2`?  This is anchored matching of the regex `kw1\s+kw2` (the `\s+` is
greedy and `kw2` starts with a non-space letter, so no backtracking arises). -/
def startsKW (kw1 kw2 : List Char) (cs : List Char) : Bool :=
  match dropLit kw1 cs with
  | none => false
  | some rest =>
    match rest with
    | [] => false
    | c :: _ => isPyWS c && (dropLit kw2 (rest.dropWhile isPyWS)).isSome

/-- `re.search` of `kw1\s+kw2` over the input: anchored matching at every
suffix. -/
def searchKW (kw1 kw2 : List Char) : List Char → Bool
  | [] => false
  | c :: cs => startsKW kw1 kw2 (c :: cs) || searchKW kw1 kw2 cs

/-- `re.search(r"\[?\s*Inclusion\s+Criteria\s*\]?", t.strip(), re.I)` viewed as
a Boolean: since the bracket and spacing affixes of the pattern are all
optional, a match exists exactly when `Inclusion\s+Criteria` matches
case-insensitively somewhere in the stripped text. -/
def inclHeadingMatch (t : String) : Bool :=
  searchKW "inclusion".data "criteria".data
    ((pyStripList t.data).map Char.toLower)

/-- Same for `Exclusion\s+Criteria`. -/
def exclHeadingMatch (t : String) : Bool :=
  searchKW "exclusion".data "criteria".data
    ((pyStripList t.data).map Char.toLower)

/-- BeautifulSoup's `tag.string`: the unique text child, chasing through
unique element children; `none` when the node has zero or several children. -/
def tagString : Node → Option String
  | .text s => some s
  | .elem _ _ [c] => tagString c
  | .elem _ _ _ => none

/-- Is this node an element whose `.string` satisfies the heading predicate?
(`root.find(True, string=lambda t: ...)` considers element nodes only, and the
lambda first checks `isinstance(t, str)`, rejecting a `None` `.string`.) -/
def isHeadingTag (p : String → Bool) : Node → Bool
  | .text _ => false
  | .elem t a cs =>
    match tagString (.elem t a cs) with
    | some s => p s
    | none => false

mutual

/-- Search the inside of one node for the first heading tag matching `p`
(pre-order); when found, return the siblings following the heading within its
own parent. -/
def findHeadingRestN (p : String → Bool) : Node → Option (List Node)
  | .text _ => none
  | .elem _ _ cs => findHeadingRest p cs

/-- Walk a sibling list in pre-order looking for the first element node whose
`.string` matches `p`; return the siblings that follow it in its own parent.
This realises `root.find(True, string=...)` followed by the
`find_next_sibling()` loop of `_find_list_after_heading`
(src/dynamic_eligibility_checker.py lines 50-66). -/
def findHeadingRest (p : String → Bool) : List Node → Option (List Node)
  | [] => none
  | n :: rest =>
    if isHeadingTag p n then some rest
    else
      match findHeadingRestN p n with
      | some r => some r
      | none => findHeadingRest p rest

end

/-- `_find_list_after_heading(root, pattern)`: locate the first heading tag
matching `p` among the descendants of `root`, then scan its following siblings
for the first `ol`/`ul`; `none` if there is no heading or no following list. -/
def findListAfterHeading (p : String → Bool) (root : Node) : Option Node :=
  match findHeadingRest p root.children with
  | none => none
  | some sibs => sibs.find? isListNode

/-- The preferred search scope (src/dynamic_eligibility_checker.py lines 46-48):
the `div#eligibility-criteria-description` container when present, otherwise
the whole criteria section. -/
def searchRoot (criteria_section : Node) : Node :=
  (findTagById criteria_section "div" "eligibility-criteria-description").getD
    criteria_section

/-- The Inclusion list as resolved before the positional fallback
(src/dynamic_eligibility_checker.py lines 72, 76-79): heading scan first,
then the dedicated container `div#eligibility-criteria-inclusion`
(`incl_div.find(["ol","ul"]) or incl_div`). -/
def inclBeforeFallback (criteria_section : Node) : Option Node :=
  match findListAfterHeading inclHeadingMatch (searchRoot criteria_section) with
  | some l => some l
  | none =>
    match findTagById criteria_section "div" "eligibility-criteria-inclusion" with
    | some d => some ((findFirstList d).getD d)
    | none => none

/-- The Exclusion list as resolved before the positional fallback
(src/dynamic_eligibility_checker.py lines 73, 81-84). -/
def exclBeforeFallback (criteria_section : Node) : Option Node :=
  match findListAfterHeading exclHeadingMatch (searchRoot criteria_section) with
  | some l => some l
  | none =>
    match findTagById criteria_section "div" "eligibility-criteria-exclusion" with
    | some d => some ((findFirstList d).getD d)
    | none => none

/-- `find_inclusion_exclusion_lists(criteria_section)`
(src/dynamic_eligibility_checker.py lines 35-95): heading tiers and dedicated
containers, then the positional fallback assigning the first and second
list-type nodes of the scope to whichever section is still unresolved. -/
def find_inclusion_exclusion_lists (criteria_section : Node) :
    Option Node × Option Node :=
  let incl := inclBeforeFallback criteria_section
  let excl := exclBeforeFallback criteria_section
  if incl.isNone || excl.isNone then
    let lists := findAllLists (searchRoot criteria_section)
    (match incl with
     | some l => some l
     | none => lists[0]?,
     match excl with
     | some l => some l
     | none => lists[1]?)
  else
    (incl, excl)

/-- One statement record produced by `analyze_list`
(src/dynamic_eligibility_checker.py lines 135-139). -/
structure StmtRec where
  text : String
  ctype : String
  has_sub_bullet : Bool
deriving Repr, DecidableEq

/-- The result dictionary of `analyze_list`
(src/dynamic_eligibility_checker.py lines 105-110): atomic records
(`correct`), compound records (`incorrect`) and their two counters. -/
structure AnalyzeResults where
  correct : List StmtRec
  incorrect : List StmtRec
  correct_count : Nat
  incorrect_count : Nat
deriving Repr, DecidableEq

/-- The initial (empty) result dictionary. -/
def emptyResults : AnalyzeResults := ⟨[], [], 0, 0⟩

/-- `item.stripped_strings`: the descendant text nodes in document order,
each stripped, with the ones that strip to the empty string dropped. -/
def strippedStrings (n : Node) : List String :=
  (descendants n).filterMap (fun d =>
    match d with
    | .text s => let t := pyStrip s; if t = "" then none else some t
    | .elem _ _ _ => none)

/-- `" ".join(item.stripped_strings)`: the extracted statement text
(src/dynamic_eligibility_checker.py line 127). -/
def textOf (item : Node) : String :=
  String.intercalate " " (strippedStrings item)

/-- `item.find(["ol", "ul"]) is not None`: does the item contain a descendant
list-type node at any depth (src/dynamic_eligibility_checker.py lines 131-133)? -/
def hasNested (item : Node) : Bool :=
  (findFirstList item).isSome

/-- `list_root.find_all("li", recursive=False)`: the direct `li` element
children (src/dynamic_eligibility_checker.py line 123). -/
def topLi (root : Node) : List Node :=
  root.children.filter (fun n => n.tagName = some "li")

/-- Lines 112-120 of src/dynamic_eligibility_checker.py: a `None` root gives
the empty result; a non-list root is drilled down to its first descendant
list-type node (empty result if there is none). -/
def resolveRoot : Option Node → Option Node
  | none => none
  | some r => if isListNode r then some r else findFirstList r

/-- The body of the `for item in top_items` loop
(src/dynamic_eligibility_checker.py lines 125-146): skip empty-text items,
classify by the presence of a nested list, append the record and bump the
matching counter. -/
def processItem (criteria_type : String) (acc : AnalyzeResults) (item : Node) :
    AnalyzeResults :=
  let txt := textOf item
  if txt = "" then acc
  else if hasNested item then
    { acc with
      incorrect := acc.incorrect ++ [⟨txt, criteria_type, true⟩],
      incorrect_count := acc.incorrect_count + 1 }
  else
    { acc with
      correct := acc.correct ++ [⟨txt, criteria_type, false⟩],
      correct_count := acc.correct_count + 1 }

/-- `analyze_list(list_root, criteria_type)`
(src/dynamic_eligibility_checker.py lines 98-148; src/automation_api.py
lines 130-175 is the same function). -/
def analyze_list (list_root : Option Node) (criteria_type : String) :
    AnalyzeResults :=
  match resolveRoot list_root with
  | none => emptyResults
  | some root => (topLi root).foldl (processItem criteria_type) emptyResults

/-- The raw descendant text tokens of a node in document order, before any
stripping (the strings `item.strings` would yield). -/
def rawTexts (n : Node) : List String :=
  (descendants n).filterMap (fun d =>
    match d with
    | .text s => some s
    | .elem _ _ _ => none)

/-- Modelled from the spec: "concatenate all descendant text tokens of the
item ... into a single normalized string, collapsing consecutive whitespace
and trimming".  `collapseWS` collapses every maximal whitespace run to a
single space and trims the ends. -/
def collapseWS (s : String) : String :=
  String.intercalate " "
    (((s.data.splitOnP isPyWS).map (fun cs => (⟨cs⟩ : String))).filter
      (fun w => w ≠ ""))

/-- Modelled from the spec: the statement text the specification describes,
namely the whitespace-collapsed, trimmed concatenation of all descendant text
tokens of the item. -/
def specTextOf (item : Node) : String :=
  collapseWS (String.intercalate " " (rawTexts item))

/-- The `eligibilityModule` dictionary of one API response
(src/automation_api.py lines 62-77).  `truthyDict` is the Python truthiness of
the dictionary (`if not elig_mod: raise`); `eligibilityCriteria` is its target
field, `none` when the key is missing. -/
structure EligModule where
  truthyDict : Bool
  eligibilityCriteria : Option String
deriving Repr, DecidableEq

/-- `data.get("study", {}).get("protocolSection", {})` with its two candidate
module keys: the correct `eligibilityModule` and the defensive typo fallback
`elgibilityModule`. -/
structure ProtoSection where
  eligibilityModule : Option EligModule
  elgibilityModule : Option EligModule
deriving Repr, DecidableEq

/-- The outcome of one HTTP attempt: an exception (network error, non-2xx
status via `raise_for_status`, or JSON decoding error), or a decoded payload. -/
inductive AttemptResult where
  | httpError
  | ok (proto : ProtoSection)
deriving Repr, DecidableEq

/-- The body of one attempt of `fetch_eligibility_html`
(src/automation_api.py lines 57-77): `none` exactly when this attempt raises
(and is caught).  The fallback key is consulted only when `eligibilityModule`
is absent (`is None`), mirroring lines 66-69; a falsy module dictionary or a
missing/empty `eligibilityCriteria` field raises. -/
def attemptEval : AttemptResult → Option String
  | .httpError => none
  | .ok proto =>
    let m := match proto.eligibilityModule with
             | some d => some d
             | none => proto.elgibilityModule
    match m with
    | none => none
    | some d =>
      if !d.truthyDict then none
      else
        match d.eligibilityCriteria with
        | none => none
        | some h => if h = "" then none else some h

/-- `MAX_RETRIES` (src/automation_api.py line 24). -/
def MAX_RETRIES : Nat := 3

/-- The retry loop of `fetch_eligibility_html`: run the pending attempt
numbers in order, short-circuiting at the first success; every failed attempt
sleeps `0.8 * attempt` seconds (recorded in the returned delay list, the
second component). -/
def fetchLoop (oracle : Nat → AttemptResult) :
    List Nat → List ℚ → Option String × List ℚ
  | [], delays => (none, delays)
  | a :: rest, delays =>
    match attemptEval (oracle a) with
    | some h => (some h, delays)
    | none => fetchLoop oracle rest (delays ++ [(4 / 5 : ℚ) * a])

/-- `fetch_eligibility_html(nct_id, session)` (src/automation_api.py
lines 43-83), with the network modelled by an oracle giving the outcome of
each numbered attempt.  Returns the fetched markup (`none` = the function's
`return None` failure path) together with the sleeps it performed. -/
def fetch_eligibility_html (oracle : Nat → AttemptResult) :
    Option String × List ℚ :=
  fetchLoop oracle (List.range' 1 MAX_RETRIES) []

/-- One row of the per-identifier summary report of `batch_compare_ncts.main`
(src/batch_compare_ncts.py lines 119-126 and 222-231). -/
structure BatchEntry where
  nctId : String
  status : String
  site_docs : Nat
  json_docs : Nat
  missing_in_json : Nat
  missing_on_site : Nat
deriving Repr, DecidableEq

/-- The outcome of one `process_single` task as observed by the collection
loop: a returned entry, or an exception propagated out of `future.result()`. -/
inductive TaskOutcome where
  | ok (e : BatchEntry)
  | raised (msg : String)
deriving Repr, DecidableEq

/-- The body of the `for future in as_completed(...)` loop
(src/batch_compare_ncts.py lines 209-231): a returned result is appended as
is; an exception is recorded as a typed error row against the identifier,
with `json_docs` recomputed from the input JSON. -/
def entryFor (jsonDocs : String → Nat) (nct : String) : TaskOutcome → BatchEntry
  | .ok e => e
  | .raised m => ⟨nct, "error: " ++ m, 0, jsonDocs nct, 0, 0⟩

/-- The complete collection loop of `batch_compare_ncts.main`: tasks deliver
their results in some completion order (a permutation of the dispatched
identifiers), and the `results` list receives exactly one entry per completed
future. -/
def collectResults (jsonDocs : String → Nat) (outcome : String → TaskOutcome)
    (completionOrder : List String) : List BatchEntry :=
  completionOrder.map (fun nct => entryFor jsonDocs nct (outcome nct))

/-- One row of `dynamic_eligibility_results.csv`
(src/dynamic_eligibility_checker.py lines 263-270). -/
structure DynRow where
  nctId : String
  total_statements : Nat
  correct_statements : Nat
  incorrect_statements : Nat
deriving Repr, DecidableEq

/-- Lines 257-270 of src/dynamic_eligibility_checker.py: totals of one
processed identifier. -/
def mkDynRow (nct : String) (incRes excRes : AnalyzeResults) : DynRow :=
  let total_correct := incRes.correct_count + excRes.correct_count
  let total_incorrect := incRes.incorrect_count + excRes.incorrect_count
  ⟨nct, total_correct + total_incorrect, total_correct, total_incorrect⟩

/-- The sequential batch loop of `dynamic_eligibility_checker.main`
(lines 250-289): each identifier is fetched and analyzed; when
`fetch_and_analyze_nct` returns `None` the loop `continue`s and the
identifier contributes no row to `all_rows`. -/
def dynBatchRows (outcome : String → Option (AnalyzeResults × AnalyzeResults))
    (nct_ids : List String) : List DynRow :=
  nct_ids.filterMap (fun nct =>
    (outcome nct).map (fun r => mkDynRow nct r.1 r.2))

/-- One record of a statement collection handed to `compare_sets`
(the dictionaries of `SSP-dev.eligibility-criteria.json` and the site records;
only the fields `compare_sets` reads are modelled). -/
structure CmpRec where
  nctId : String
  statement : String
deriving Repr, DecidableEq

/-- `str.lower()` (character-wise lowering, as for the ASCII text compared
here). -/
def pyLower (s : String) : String :=
  ⟨s.data.map Char.toLower⟩

/-- `r["statement"].strip().lower()`: the comparison key of `compare_sets`. -/
def normKey (s : String) : String :=
  pyLower (pyStrip s)

/-- The comparison keys of a record collection, in order. -/
def keysOf (rs : List CmpRec) : List String :=
  rs.map (fun r => normKey r.statement)

/-- The Python set of comparison keys, as its deduplicated key list (set
iteration order is irrelevant to every property proved below). -/
def dedupKeys (rs : List CmpRec) : List String :=
  (keysOf rs).dedup

/-- `{r["statement"].strip().lower(): r for r in rs}[k]`: the dictionary
comprehension keeps the last record with a given key. -/
def lastWithKey (rs : List CmpRec) (k : String) : Option CmpRec :=
  (rs.filter (fun r => normKey r.statement = k)).getLast?

/-- `compare_sets(site_recs, json_recs)` (src/batch_compare_ncts.py
lines 43-57): the two input sizes and the two one-sided difference lists,
each difference key represented by the record the dictionary comprehension
retained for it. -/
def compare_sets (site_recs json_recs : List CmpRec) :
    Nat × Nat × List CmpRec × List CmpRec :=
  let missing_in_json :=
    (dedupKeys site_recs).filter (fun k => ¬ k ∈ keysOf json_recs)
  let missing_on_site :=
    (dedupKeys json_recs).filter (fun k => ¬ k ∈ keysOf site_recs)
  (site_recs.length, json_recs.length,
   missing_in_json.filterMap (lastWithKey site_recs),
   missing_on_site.filterMap (lastWithKey json_recs))

/-! ## Proof-layer helpers for the classifier -/

/-- Items kept as atomic records: non-empty extracted text, no nested list. -/
def keepAtomic (i : Node) : Bool :=
  textOf i != "" && !hasNested i

/-- Items kept as compound records: non-empty extracted text, nested list. -/
def keepCompound (i : Node) : Bool :=
  textOf i != "" && hasNested i

/-- Unfolding of the `for item in top_items` loop of `analyze_list`: the two
record lists extend in document order with the kept items, and the counters
advance by the number of kept items of each class. -/
theorem foldl_processItem (t : String) (items : List Node) (acc : AnalyzeResults) :
    items.foldl (processItem t) acc =
      ⟨acc.correct ++ (items.filter keepAtomic).map (fun i => ⟨textOf i, t, false⟩),
       acc.incorrect ++ (items.filter keepCompound).map (fun i => ⟨textOf i, t, true⟩),
       acc.correct_count + items.countP keepAtomic,
       acc.incorrect_count + items.countP keepCompound⟩ := by
  induction items generalizing acc with
  | nil => simp
  | cons i rest ih =>
    rw [List.foldl_cons, ih]
    by_cases he : textOf i = "" <;>
      cases hn : hasNested i <;>
        simp [processItem, keepAtomic, keepCompound, he, hn, List.filter_cons,
          List.countP_cons] <;>
        omega

/-- Characterisation of `analyze_list` once a list root has been resolved. -/
theorem analyze_list_eq (o : Option Node) (t : String) (root : Node)
    (h : resolveRoot o = some root) :
    analyze_list o t =
      ⟨((topLi root).filter keepAtomic).map (fun i => ⟨textOf i, t, false⟩),
       ((topLi root).filter keepCompound).map (fun i => ⟨textOf i, t, true⟩),
       (topLi root).countP keepAtomic,
       (topLi root).countP keepCompound⟩ := by
  unfold analyze_list
  rw [h]
  simpa [emptyResults] using foldl_processItem t (topLi root) emptyResults

mutual

/-- Replace every text token of a document by the image under `f`, keeping the
element structure untouched. -/
def retext (f : String → String) : Node → Node
  | .text s => .text (f s)
  | .elem t a cs => .elem t a (retextList f cs)

/-- `retext` on a sibling list. -/
def retextList (f : String → String) : List Node → List Node
  | [] => []
  | n :: ns => retext f n :: retextList f ns

end

mutual

/-- Rewriting text tokens maps the pre-order subtree pointwise. -/
theorem subtree_retext (f : String → String) :
    ∀ n : Node, Node.subtree (retext f n) = (Node.subtree n).map (retext f)
  | .text s => by simp [retext, Node.subtree]
  | .elem t a cs => by
    simp [retext, Node.subtree, subtreeList_retext f cs]

/-- Rewriting text tokens maps the pre-order traversal of a sibling list
pointwise. -/
theorem subtreeList_retext (f : String → String) :
    ∀ ns : List Node, subtreeList (retextList f ns) = (subtreeList ns).map (retext f)
  | [] => by simp [retextList, subtreeList]
  | n :: ns => by
    simp [retextList, subtreeList, subtree_retext f n, subtreeList_retext f ns]

end

/-- `retext` keeps tag names, hence keeps being a list-type node. -/
theorem isListNode_retext (f : String → String) (n : Node) :
    isListNode (retext f n) = isListNode n := by
  cases n <;> simp [retext, isListNode, Node.tagName]

/-- `retext` keeps the children traversal. -/
theorem descendants_retext (f : String → String) (n : Node) :
    descendants (retext f n) = (descendants n).map (retext f) := by
  cases n with
  | text s => simp [retext, descendants, Node.children, retextList, subtreeList]
  | elem t a cs => simp [retext, descendants, Node.children, subtreeList_retext]

/-- Classification is independent of the text content: rewriting every text
token leaves `hasNested` unchanged. -/
theorem hasNested_retext (f : String → String) (i : Node) :
    hasNested (retext f i) = hasNested i := by
  unfold hasNested findFirstList
  rw [descendants_retext, List.find?_map]
  have : (isListNode ∘ retext f) = isListNode := by
    funext n; simp [isListNode_retext]
  simp [this]

/-- `hasNested` holds exactly when some descendant is a list-type node. -/
theorem hasNested_iff (i : Node) :
    hasNested i = true ↔ ∃ d ∈ descendants i, isListNode d = true := by
  unfold hasNested findFirstList
  rw [Option.isSome_iff_exists]
  constructor
  · rintro ⟨l, hl⟩
    exact ⟨l, List.mem_of_find?_eq_some hl, List.find?_some hl⟩
  · rintro ⟨d, hd, hp⟩
    rcases List.find?_isSome.mpr ⟨d, hd, hp⟩ |> Option.isSome_iff_exists.mp with ⟨l, hl⟩
    exact ⟨l, hl⟩

/-! ## Sample documents used by witnesses and counterexamples -/

/-- A nested sub-list `<ul><li>s1</li><li>s2</li></ul>`. -/
def wSubUl : Node :=
  .elem "ul" [] [.elem "li" [] [.text "s1"], .elem "li" [] [.text "s2"]]

/-- A compound item: `<li>three <ul>...</ul></li>`. -/
def wNestedLi : Node := .elem "li" [] [.text "three ", wSubUl]

/-- An ordered list with two atomic items and one compound item. -/
def wList : Node :=
  .elem "ol" []
    [.elem "li" [] [.text "one"], .elem "li" [] [.text "two"], wNestedLi]

/-- C4 counterexample item: a single text token with an internal double
space, `<li>a  b</li>`. -/
def c4Item : Node := .elem "li" [] [.text "a  b"]

/-- The list containing the C4 counterexample item. -/
def c4List : Node := .elem "ol" [] [c4Item]

/-- C3.  For every resolved section root, `analyze_list` enumerates exactly
the immediate `li` children of the resolved list, in document order (split
into the atomic and compound record lists, each preserving document order,
with empty-text items skipped as the specification states elsewhere); an
item's nested flag is true iff its descendant subtree contains a list-type
node (`ol` or `ul` alike) at any depth; and the flag is independent of all
text content. -/
theorem classifier_enumeration_and_structural_flag (o : Option Node)
    (t : String) (root : Node) (h : resolveRoot o = some root) :
    (analyze_list o t).correct =
        ((topLi root).filter keepAtomic).map (fun i => ⟨textOf i, t, false⟩)
    ∧ (analyze_list o t).incorrect =
        ((topLi root).filter keepCompound).map (fun i => ⟨textOf i, t, true⟩)
    ∧ (∀ i ∈ topLi root,
        hasNested i = true ↔ ∃ d ∈ descendants i, isListNode d = true)
    ∧ (∀ (f : String → String) (i : Node), hasNested (retext f i) = hasNested i) := by
  rw [analyze_list_eq o t root h]
  exact ⟨rfl, rfl, fun i _ => hasNested_iff i, fun f i => hasNested_retext f i⟩

/-- Witness for C3 at a concrete document: the compound record list of
`wList` is exactly its nested item, and the nested item's flag is forced by
its descendant `ul`. -/
theorem classifier_enumeration_witness :
    (analyze_list (some wList) "Inclusion").incorrect =
      [⟨"three s1 s2", "Inclusion", true⟩] := by
  have h := classifier_enumeration_and_structural_flag (some wList) "Inclusion"
    wList (by decide)
  exact h.2.1.trans (by decide)

/-- C4 counterexample: for the item `<li>a  b</li>` the code extracts
`"a  b"` (the internal double space of the single text token survives
`" ".join(item.stripped_strings)`), while the claimed normalization — all
consecutive whitespace collapsed — yields `"a b"`. -/
theorem statement_text_whitespace_counterexample :
    (analyze_list (some c4List) "Inclusion").correct.map StmtRec.text = ["a  b"]
    ∧ specTextOf c4Item = "a b"
    ∧ textOf c4Item ≠ specTextOf c4Item := by
  refine ⟨by decide, by decide, by decide⟩

/-- C4 as amended: the extracted statement text is the single-space join of
the stripped, non-empty descendant text tokens (nested-list text included in
document order). Whitespace is therefore collapsed and trimmed at token
boundaries only; runs inside one text token are preserved verbatim. -/
theorem statement_text_token_join (item : Node) :
    textOf item = String.intercalate " "
      (((rawTexts item).map pyStrip).filter (fun s => s != "")) := by
  unfold textOf strippedStrings rawTexts
  congr 1
  generalize descendants item = L
  induction L with
  | nil => rfl
  | cons d rest ih =>
    cases d with
    | text s =>
      by_cases h : pyStrip s = "" <;>
        simp [List.filterMap_cons, h, ih]
    | elem t a cs =>
      simp [List.filterMap_cons, ih]

/-- `keepAtomic` and `keepCompound` partition the items with non-empty text. -/
theorem countP_keep_split (l : List Node) :
    l.countP keepAtomic + l.countP keepCompound
      = l.countP (fun i => textOf i != "") := by
  induction l with
  | nil => rfl
  | cons i rest ih =>
    by_cases he : textOf i = "" <;>
      cases hn : hasNested i <;>
        simp [List.countP_cons, keepAtomic, keepCompound, he, hn] <;>
        omega

/-- C5.  The two counters always equal the lengths of the record lists they
count; no record is created with empty text; their sum is the number of
records produced; and (once a root is resolved) the sum equals the number of
immediate items with non-empty text — empty-text items contribute to neither
count. -/
theorem classifier_count_invariants (o : Option Node) (t : String) :
    (analyze_list o t).correct_count = (analyze_list o t).correct.length
    ∧ (analyze_list o t).incorrect_count = (analyze_list o t).incorrect.length
    ∧ (∀ r ∈ (analyze_list o t).correct ++ (analyze_list o t).incorrect,
        r.text ≠ "")
    ∧ (analyze_list o t).correct_count + (analyze_list o t).incorrect_count
        = ((analyze_list o t).correct ++ (analyze_list o t).incorrect).length
    ∧ (∀ root, resolveRoot o = some root →
        (analyze_list o t).correct_count + (analyze_list o t).incorrect_count
          = ((topLi root).filter (fun i => textOf i != "")).length) := by
  cases hro : resolveRoot o with
  | none =>
    unfold analyze_list
    rw [hro]
    simp [emptyResults]
  | some root =>
    rw [analyze_list_eq o t root hro]
    refine ⟨?_, ?_, ?_, ?_, ?_⟩
    · simp [List.countP_eq_length_filter]
    · simp [List.countP_eq_length_filter]
    · intro r hr
      rcases List.mem_append.mp hr with hr | hr
      · rcases List.mem_map.mp hr with ⟨i, hi, rfl⟩
        have hk := (List.mem_filter.mp hi).2
        simp only [keepAtomic, Bool.and_eq_true, bne_iff_ne] at hk
        exact hk.1
      · rcases List.mem_map.mp hr with ⟨i, hi, rfl⟩
        have hk := (List.mem_filter.mp hi).2
        simp only [keepCompound, Bool.and_eq_true, bne_iff_ne] at hk
        exact hk.1
    · simp [List.countP_eq_length_filter]
    · intro root' hr'
      injection hr' with h
      subst h
      rw [countP_keep_split, List.countP_eq_length_filter]

/-- Witness for C5 at a concrete document: counts 2 and 1 for `wList`. -/
theorem classifier_count_invariants_witness :
    (analyze_list (some wList) "Exclusion").correct_count
      + (analyze_list (some wList) "Exclusion").incorrect_count
      = ((topLi wList).filter (fun i => textOf i != "")).length := by
  exact (classifier_count_invariants (some wList) "Exclusion").2.2.2.2 wList
    (by decide)

/-! ## Locator properties -/

/-- The Inclusion `SectionRoot` derived from the dedicated per-section
container `div#eligibility-criteria-inclusion`
(src/dynamic_eligibility_checker.py lines 76-79): its first descendant list,
or the container itself when it holds no list. -/
def inclContainerRoot (d : Node) : Option Node :=
  (findTagById d "div" "eligibility-criteria-inclusion").map
    (fun dv => (findFirstList dv).getD dv)

/-- The Exclusion `SectionRoot` derived from
`div#eligibility-criteria-exclusion` (lines 81-84). -/
def exclContainerRoot (d : Node) : Option Node :=
  (findTagById d "div" "eligibility-criteria-exclusion").map
    (fun dv => (findFirstList dv).getD dv)

/-- A section resolved before the positional fallback is returned as is
(Inclusion side). -/
theorem find_lists_fst_of_before (d : Node) (L : Node)
    (h : inclBeforeFallback d = some L) :
    (find_inclusion_exclusion_lists d).1 = some L := by
  cases he : exclBeforeFallback d <;>
    simp [find_inclusion_exclusion_lists, h, he]

/-- A section resolved before the positional fallback is returned as is
(Exclusion side). -/
theorem find_lists_snd_of_before (d : Node) (L : Node)
    (h : exclBeforeFallback d = some L) :
    (find_inclusion_exclusion_lists d).2 = some L := by
  cases hi : inclBeforeFallback d <;>
    simp [find_inclusion_exclusion_lists, h, hi]

/-- A successful heading scan resolves the Inclusion section. -/
theorem inclBefore_of_heading (d : Node) (L : Node)
    (h : findListAfterHeading inclHeadingMatch (searchRoot d) = some L) :
    inclBeforeFallback d = some L := by
  simp [inclBeforeFallback, h]

/-- A successful heading scan resolves the Exclusion section. -/
theorem exclBefore_of_heading (d : Node) (L : Node)
    (h : findListAfterHeading exclHeadingMatch (searchRoot d) = some L) :
    exclBeforeFallback d = some L := by
  simp [exclBeforeFallback, h]

/-- When the heading scan fails, a present dedicated container resolves the
Inclusion section to the root derived from it. -/
theorem inclBefore_of_container (d : Node) (R : Node)
    (hh : findListAfterHeading inclHeadingMatch (searchRoot d) = none)
    (hc : inclContainerRoot d = some R) :
    inclBeforeFallback d = some R := by
  unfold inclContainerRoot at hc
  cases hdv : findTagById d "div" "eligibility-criteria-inclusion" <;>
    rw [hdv] at hc <;> simp at hc
  simp [inclBeforeFallback, hh, hdv, hc]

/-- When the heading scan fails, a present dedicated container resolves the
Exclusion section to the root derived from it. -/
theorem exclBefore_of_container (d : Node) (R : Node)
    (hh : findListAfterHeading exclHeadingMatch (searchRoot d) = none)
    (hc : exclContainerRoot d = some R) :
    exclBeforeFallback d = some R := by
  unfold exclContainerRoot at hc
  cases hdv : findTagById d "div" "eligibility-criteria-exclusion" <;>
    rw [hdv] at hc <;> simp at hc
  simp [exclBeforeFallback, hh, hdv, hc]

/-- C1 counterexample document: a heading `<p>Inclusion Criteria</p>`
followed by one list, plus the dedicated container
`div#eligibility-criteria-inclusion` holding a different list. -/
def c1Heading : Node := .elem "p" [] [.text "Inclusion Criteria"]

/-- The list following the heading in the C1 counterexample. -/
def c1HeadingList : Node := .elem "ol" [] [.elem "li" [] [.text "b1"]]

/-- The list inside the dedicated container in the C1 counterexample. -/
def c1ContainerList : Node := .elem "ol" [] [.elem "li" [] [.text "a1"]]

/-- The dedicated per-section container of the C1 counterexample. -/
def c1Container : Node :=
  .elem "div" [("id", "eligibility-criteria-inclusion")] [c1ContainerList]

/-- The C1 counterexample document. -/
def c1Doc : Node := .elem "section" [] [c1Heading, c1HeadingList, c1Container]

/-- C1 counterexample: in `c1Doc` the dedicated per-section container is
present and derives `c1ContainerList`, yet the locator returns the list found
by the heading scan — the heading-scan tier runs first and wins, so the claim
that a present dedicated container always determines the result (and that the
heading scan is never consulted) is false. -/
theorem locator_container_precedence_counterexample :
    inclContainerRoot c1Doc = some c1ContainerList
    ∧ (find_inclusion_exclusion_lists c1Doc).1 = some c1HeadingList
    ∧ c1HeadingList ≠ c1ContainerList := by
  refine ⟨by decide, by decide, by decide⟩

/-- C1 as amended: per section the tiers run strictly in order — heading scan
within the preferred scope first, then the dedicated per-section container,
then the positional fallback — short-circuiting at the first match; whenever
the heading scan fails for a section and its dedicated container is present,
the returned `SectionRoot` is the one derived from that container. -/
theorem locator_tier_order_amended (d : Node) :
    (∀ L, findListAfterHeading inclHeadingMatch (searchRoot d) = some L →
        (find_inclusion_exclusion_lists d).1 = some L)
    ∧ (findListAfterHeading inclHeadingMatch (searchRoot d) = none →
        ∀ R, inclContainerRoot d = some R →
          (find_inclusion_exclusion_lists d).1 = some R)
    ∧ (∀ L, findListAfterHeading exclHeadingMatch (searchRoot d) = some L →
        (find_inclusion_exclusion_lists d).2 = some L)
    ∧ (findListAfterHeading exclHeadingMatch (searchRoot d) = none →
        ∀ R, exclContainerRoot d = some R →
          (find_inclusion_exclusion_lists d).2 = some R) := by
  refine ⟨fun L h => ?_, fun hh R hc => ?_, fun L h => ?_, fun hh R hc => ?_⟩
  · exact find_lists_fst_of_before d L (inclBefore_of_heading d L h)
  · exact find_lists_fst_of_before d R (inclBefore_of_container d R hh hc)
  · exact find_lists_snd_of_before d L (exclBefore_of_heading d L h)
  · exact find_lists_snd_of_before d R (exclBefore_of_container d R hh hc)

/-- A document containing only the dedicated Inclusion container (the
verification scenario the specification proposes for tier precedence). -/
def w1Doc : Node := .elem "section" [] [c1Container]

/-- Witness for the amended C1: with only the dedicated container present the
locator returns the container-derived list. -/
theorem locator_tier_order_amended_witness :
    (find_inclusion_exclusion_lists w1Doc).1 = some c1ContainerList := by
  exact (locator_tier_order_amended w1Doc).2.1 (by decide) c1ContainerList
    (by decide)

/-- C2 counterexample document: an Exclusion heading followed by the only
list of the document, and nothing that matches Inclusion. -/
def c2Heading : Node := .elem "p" [] [.text "Exclusion Criteria"]

/-- The only list node of the C2 counterexample document. -/
def c2OnlyList : Node := .elem "ol" [] [.elem "li" [] [.text "x1"]]

/-- The C2 counterexample document. -/
def c2Doc : Node := .elem "div" [] [c2Heading, c2OnlyList]

/-- C2 counterexample: on `c2Doc` the heading tier resolves Exclusion to the
only list, and the positional fallback then assigns the very same node to the
still-unresolved Inclusion — the locator returns one node as the SectionRoot
of both sections, refuting "Inclusion and Exclusion are never both forced
into the same node". -/
theorem locator_fallback_same_node_counterexample :
    find_inclusion_exclusion_lists c2Doc = (some c2OnlyList, some c2OnlyList)
    ∧ exclBeforeFallback c2Doc = some c2OnlyList
    ∧ inclBeforeFallback c2Doc = none := by
  refine ⟨by decide, by decide, by decide⟩

/-- C2 as amended: the positional fallback runs only for whichever section is
still unresolved — a section resolved by an earlier tier keeps its node — and
it assigns the first list-type node of the scope (in document order) to
Inclusion and the second to Exclusion.  When both sections reach the fallback
unresolved they therefore receive distinct occurrences (the first and second
entries of the scope's list sequence); but a node already chosen by an
earlier tier for one section may coincide with the node the fallback assigns
to the other, so the two returned roots are not always distinct. -/
theorem locator_fallback_assignment (d : Node) :
    (inclBeforeFallback d = none →
        (find_inclusion_exclusion_lists d).1 = (findAllLists (searchRoot d))[0]?)
    ∧ (exclBeforeFallback d = none →
        (find_inclusion_exclusion_lists d).2 = (findAllLists (searchRoot d))[1]?)
    ∧ (∀ L, inclBeforeFallback d = some L →
        (find_inclusion_exclusion_lists d).1 = some L)
    ∧ (∀ L, exclBeforeFallback d = some L →
        (find_inclusion_exclusion_lists d).2 = some L) := by
  refine ⟨fun hi => ?_, fun he => ?_, fun L h => find_lists_fst_of_before d L h,
    fun L h => find_lists_snd_of_before d L h⟩
  · cases he : exclBeforeFallback d <;>
      simp [find_inclusion_exclusion_lists, hi, he]
  · cases hi : inclBeforeFallback d <;>
      simp [find_inclusion_exclusion_lists, hi, he]

/-- A document with two lists and no matching heading text for either
section (the specification's Scenario B). -/
def w2Doc : Node :=
  .elem "div" []
    [.elem "ol" [] [.elem "li" [] [.text "p1"]],
     .elem "ul" [] [.elem "li" [] [.text "q1"]]]

/-- Witness for the amended C2: on the Scenario-B document the fallback
assigns the first list to Inclusion and the second to Exclusion. -/
theorem locator_fallback_assignment_witness :
    (find_inclusion_exclusion_lists w2Doc).1
        = (findAllLists (searchRoot w2Doc))[0]?
    ∧ (find_inclusion_exclusion_lists w2Doc).2
        = (findAllLists (searchRoot w2Doc))[1]? := by
  exact ⟨(locator_fallback_assignment w2Doc).1 (by decide),
    (locator_fallback_assignment w2Doc).2.1 (by decide)⟩

/-- C10.  When no tier before the positional fallback resolves either section
and the scope holds exactly one list-type node, the locator returns that node
as the Inclusion root and `none` for Exclusion; and whenever Exclusion is
still unresolved and the scope holds fewer than two list-type nodes, no
Exclusion root is assigned. -/
theorem locator_fallback_single_list (d : Node) :
    (∀ L, inclBeforeFallback d = none → exclBeforeFallback d = none →
        findAllLists (searchRoot d) = [L] →
        find_inclusion_exclusion_lists d = (some L, none))
    ∧ (exclBeforeFallback d = none → (findAllLists (searchRoot d)).length < 2 →
        (find_inclusion_exclusion_lists d).2 = none) := by
  constructor
  · intro L hi he hl
    simp [find_inclusion_exclusion_lists, hi, he, hl]
  · intro he hlen
    cases hi : inclBeforeFallback d <;>
      simp [find_inclusion_exclusion_lists, hi, he] <;>
      omega

/-- A document whose scope contains a single list and no headings. -/
def w10List : Node := .elem "ol" [] [.elem "li" [] [.text "only"]]

/-- The single-list document for the C10 witness. -/
def w10Doc : Node := .elem "div" [] [w10List]

/-- Witness for C10: the single list becomes the Inclusion root, Exclusion
stays absent. -/
theorem locator_fallback_single_list_witness :
    find_inclusion_exclusion_lists w10Doc = (some w10List, none) := by
  exact (locator_fallback_single_list w10Doc).1 w10List (by decide) (by decide)
    (by decide)

/-! ## Fetcher properties -/

/-- A successful attempt always carries the non-empty target field: the code
raises (hence the attempt fails) on a missing or empty `eligibilityCriteria`. -/
theorem attemptEval_ne_empty (r : AttemptResult) (h : String)
    (hh : attemptEval r = some h) : h ≠ "" := by
  cases r with
  | httpError => simp [attemptEval] at hh
  | ok proto =>
    rcases proto with ⟨em, fal⟩
    unfold attemptEval at hh
    rcases em with _ | ⟨tr, crit⟩
    · rcases fal with _ | ⟨tr, crit⟩
      · simp at hh
      · cases tr
        · simp at hh
        · rcases crit with _ | c
          · simp at hh
          · by_cases hc : c = "" <;> simp [hc] at hh
            exact hh ▸ hc
    · cases tr
      · simp at hh
      · rcases crit with _ | c
        · simp at hh
        · by_cases hc : c = "" <;> simp [hc] at hh
          exact hh ▸ hc

/-- A result produced by the retry loop is a field produced by some accepted
attempt, hence non-empty. -/
theorem fetchLoop_some_ne (oracle : Nat → AttemptResult) :
    ∀ (attempts : List Nat) (ds : List ℚ) (h : String),
      (fetchLoop oracle attempts ds).1 = some h → h ≠ ""
  | [], ds, h => by simp [fetchLoop]
  | a :: rest, ds, h => by
    intro hh
    unfold fetchLoop at hh
    cases hev : attemptEval (oracle a) with
    | some x =>
      rw [hev] at hh
      simp at hh
      exact hh ▸ attemptEval_ne_empty _ _ hev
    | none =>
      rw [hev] at hh
      exact fetchLoop_some_ne oracle rest _ h hh

/-- C6.  For every network behaviour: a missing or empty target field makes
the attempt fail; the loop short-circuits at the first successful attempt; a
failure of all `MAX_RETRIES = 3` attempts returns the typed failure `none`
(never an exception — the embedding is a total function into
`Option String`) after sleeping `0.8 * attempt` seconds per failed attempt,
an increasing backoff; and a returned payload is always non-empty. -/
theorem fetch_retry_and_typed_failure (oracle : Nat → AttemptResult) :
    (∀ m : EligModule,
        m.eligibilityCriteria = none ∨ m.eligibilityCriteria = some "" →
        attemptEval (.ok ⟨some m, none⟩) = none)
    ∧ (∀ h, attemptEval (oracle 1) = some h →
        fetch_eligibility_html oracle = (some h, []))
    ∧ ((∀ i, 1 ≤ i → i ≤ MAX_RETRIES → attemptEval (oracle i) = none) →
        fetch_eligibility_html oracle
          = (none, [(4 : ℚ) / 5, (8 : ℚ) / 5, (12 : ℚ) / 5]))
    ∧ (∀ h, (fetch_eligibility_html oracle).1 = some h → h ≠ "") := by
  have hrange : List.range' 1 MAX_RETRIES = [1, 2, 3] := rfl
  refine ⟨?_, ?_, ?_, ?_⟩
  · rintro ⟨tr, crit⟩ hm
    rcases hm with hm | hm <;> simp at hm <;> subst hm <;>
      cases tr <;> simp [attemptEval]
  · intro h h1
    unfold fetch_eligibility_html
    rw [hrange]
    simp [fetchLoop, h1]
  · intro hall
    have h1 := hall 1 (by norm_num) (by norm_num [MAX_RETRIES])
    have h2 := hall 2 (by norm_num) (by norm_num [MAX_RETRIES])
    have h3 := hall 3 (by norm_num) (by norm_num [MAX_RETRIES])
    unfold fetch_eligibility_html
    rw [hrange]
    simp [fetchLoop, h1, h2, h3]
    norm_num
  · intro h hh
    exact fetchLoop_some_ne oracle _ _ h hh

/-- Witness for C6: an endpoint failing on every attempt yields the typed
failure after exactly three attempts with delays 0.8, 1.6, 2.4 seconds. -/
theorem fetch_retry_witness :
    fetch_eligibility_html (fun _ => .httpError)
      = (none, [(4 : ℚ) / 5, (8 : ℚ) / 5, (12 : ℚ) / 5]) := by
  exact (fetch_retry_and_typed_failure (fun _ => .httpError)).2.2.1
    (fun i _ _ => rfl)

/-! ## Batch report properties -/

/-- C7 counterexample: the sequential batch of
`dynamic_eligibility_checker.main` silently drops an identifier whose
`fetch_and_analyze_nct` returns `None` (`if res is None: continue`,
line 254-255) — one identifier is dispatched, yet the final report holds no
entry for it, refuting "exactly one entry per dispatched identifier" for
every batch run. -/
theorem batch_report_drop_counterexample :
    dynBatchRows (fun _ => none) ["NCT00000001"] = [] := by
  rfl

/-- C7 as amended: the concurrent orchestrator of `batch_compare_ncts.main`
does satisfy the claim — whatever order the futures complete in, the report
holds exactly one entry per dispatched identifier (tasks label their entries
with their own identifier, which `process_single` always does), and the
failure of one identifier's task never changes any other identifier's entry;
the sequential Selenium batch, by contrast, omits failed identifiers. -/
theorem batch_report_complete_and_isolated (jd : String → Nat)
    (outcome : String → TaskOutcome) (ids order : List String)
    (hperm : order.Perm ids)
    (hok : ∀ nct e, outcome nct = .ok e → e.nctId = nct) :
    (collectResults jd outcome order).length = ids.length
    ∧ (∀ nct, (collectResults jd outcome order).countP
        (fun e => e.nctId == nct) = ids.count nct)
    ∧ (∀ (o2 : String → TaskOutcome) (x : String),
        (∀ y, y ≠ x → o2 y = outcome y) →
        ∀ i, (h : i < order.length) → order[i] ≠ x →
          (collectResults jd outcome order)[i]?
            = (collectResults jd o2 order)[i]?) := by
  have hlabel : ∀ nct, (entryFor jd nct (outcome nct)).nctId = nct := by
    intro nct
    cases ho : outcome nct with
    | ok e => simpa [entryFor] using hok nct e ho
    | raised m => rfl
  refine ⟨?_, ?_, ?_⟩
  · simp [collectResults, hperm.length_eq]
  · intro nct
    rw [collectResults, List.countP_map]
    have : ∀ y ∈ order,
        ((fun e => e.nctId == nct) ∘
          (fun n => entryFor jd n (outcome n))) y = (y == nct) := by
      intro y _
      simp [Function.comp, hlabel y]
    rw [List.countP_congr (fun y hy => by rw [this y hy])]
    rw [← List.count_eq_countP]
    exact hperm.count_eq nct
  · intro o2 x hagree i h hix
    have h' : i < (collectResults jd outcome order).length := by
      simpa [collectResults] using h
    have h'' : i < (collectResults jd o2 order).length := by
      simpa [collectResults] using h
    rw [List.getElem?_eq_getElem h', List.getElem?_eq_getElem h'']
    simp only [collectResults, List.getElem_map]
    rw [hagree order[i] hix]

/-- Concrete batch for the C7/C8 witnesses: two identifiers, one task
succeeding, one raising. -/
def wOutcome : String → TaskOutcome := fun nct =>
  if nct = "NCT0001" then .ok ⟨"NCT0001", "ok", 3, 2, 1, 0⟩
  else .raised "boom"

/-- Every `ok` entry of `wOutcome` is labelled with its own identifier. -/
theorem wOutcome_labels (nct : String) (e : BatchEntry)
    (h : wOutcome nct = .ok e) : e.nctId = nct := by
  by_cases hx : nct = "NCT0001" <;> simp [wOutcome, hx] at h
  rw [← h, hx]

/-- Witness for the amended C7: on a concrete two-identifier batch collected
in reversed completion order, each identifier gets exactly one entry. -/
theorem batch_report_complete_witness :
    (collectResults (fun _ => 0) wOutcome ["NCT0002", "NCT0001"]).countP
        (fun e => e.nctId == "NCT0001")
      = (["NCT0001", "NCT0002"] : List String).count "NCT0001" := by
  exact (batch_report_complete_and_isolated (fun _ => 0) wOutcome
    ["NCT0001", "NCT0002"] ["NCT0002", "NCT0001"]
    (by decide) wOutcome_labels).2.1 "NCT0001"

/-- C8 counterexample: the `results` list of `batch_compare_ncts.main` is
appended in completion order (`for future in as_completed(...)`), so two runs
differing only in completion order produce different final report contents
(the same rows, in a different order) — the report is a list, not a mapping
keyed by identifier. -/
theorem batch_report_order_counterexample :
    collectResults (fun _ => 0) wOutcome ["NCT0001", "NCT0002"]
      ≠ collectResults (fun _ => 0) wOutcome ["NCT0002", "NCT0001"] := by
  decide

/-- C8 as amended: permuting the dispatch (or completion) order permutes the
report rows correspondingly, so the multiset of per-identifier entries and
every aggregate total computed from the completed report (here: the per-key
row counts and the column sums) are completion-order independent; only the
row order of the report varies. -/
theorem batch_report_order_independence (jd : String → Nat)
    (outcome : String → TaskOutcome) (o1 o2 : List String)
    (h : o1.Perm o2) :
    (collectResults jd outcome o1).Perm (collectResults jd outcome o2)
    ∧ (∀ nct, (collectResults jd outcome o1).countP (fun e => e.nctId == nct)
        = (collectResults jd outcome o2).countP (fun e => e.nctId == nct))
    ∧ ((collectResults jd outcome o1).map (fun e => e.site_docs)).sum
        = ((collectResults jd outcome o2).map (fun e => e.site_docs)).sum
    ∧ ((collectResults jd outcome o1).map (fun e => e.missing_in_json)).sum
        = ((collectResults jd outcome o2).map (fun e => e.missing_in_json)).sum := by
  have hp : (collectResults jd outcome o1).Perm (collectResults jd outcome o2) :=
    h.map _
  exact ⟨hp, fun nct => hp.countP_eq _, (hp.map _).sum_eq, (hp.map _).sum_eq⟩

/-- Witness for the amended C8: on the concrete two-identifier batch the two
completion orders give permuted reports with equal column sums. -/
theorem batch_report_order_independence_witness :
    (collectResults (fun _ => 0) wOutcome ["NCT0001", "NCT0002"]).Perm
        (collectResults (fun _ => 0) wOutcome ["NCT0002", "NCT0001"])
    ∧ ((collectResults (fun _ => 0) wOutcome ["NCT0001", "NCT0002"]).map
        (fun e => e.site_docs)).sum
      = ((collectResults (fun _ => 0) wOutcome ["NCT0002", "NCT0001"]).map
        (fun e => e.site_docs)).sum := by
  have h := batch_report_order_independence (fun _ => 0) wOutcome
    ["NCT0001", "NCT0002"] ["NCT0002", "NCT0001"] (by decide)
  exact ⟨h.1, h.2.2.1⟩

/-! ## Comparator properties -/

/-- Unfolding of `compare_sets` into its four components. -/
theorem compare_sets_eq (A B : List CmpRec) :
    compare_sets A B =
      (A.length, B.length,
       ((dedupKeys A).filter (fun k => ¬ k ∈ keysOf B)).filterMap (lastWithKey A),
       ((dedupKeys B).filter (fun k => ¬ k ∈ keysOf A)).filterMap (lastWithKey B)) :=
  rfl

/-- The record the dictionary comprehension keeps for a key is an input
record with that key. -/
theorem lastWithKey_mem (rs : List CmpRec) (k : String) (x : CmpRec)
    (h : lastWithKey rs k = some x) : x ∈ rs ∧ normKey x.statement = k := by
  have hx := List.mem_of_getLast?_eq_some h
  have hm := List.mem_filter.mp hx
  exact ⟨hm.1, by simpa using hm.2⟩

/-- Membership in the `missing_in_json` output list. -/
theorem compare_sets_mem_left (A B : List CmpRec) (x : CmpRec)
    (hx : x ∈ (compare_sets A B).2.2.1) :
    x ∈ A ∧ normKey x.statement ∉ keysOf B := by
  rw [compare_sets_eq] at hx
  rcases List.mem_filterMap.mp hx with ⟨k, hk, hlast⟩
  have hkf := List.mem_filter.mp hk
  have hnotB : ¬ k ∈ keysOf B := by simpa using hkf.2
  have hmem := lastWithKey_mem A k x hlast
  exact ⟨hmem.1, hmem.2 ▸ hnotB⟩

/-- Membership in the `missing_on_site` output list. -/
theorem compare_sets_mem_right (A B : List CmpRec) (y : CmpRec)
    (hy : y ∈ (compare_sets A B).2.2.2) :
    y ∈ B ∧ normKey y.statement ∉ keysOf A := by
  rw [compare_sets_eq] at hy
  rcases List.mem_filterMap.mp hy with ⟨k, hk, hlast⟩
  have hkf := List.mem_filter.mp hk
  have hnotA : ¬ k ∈ keysOf A := by simpa using hkf.2
  have hmem := lastWithKey_mem B k y hlast
  exact ⟨hmem.1, hmem.2 ▸ hnotA⟩

/-- C9.  `compare_sets` keys equality on text normalized by trimming and
lowercasing (`normKey`), reports the sizes of both inputs, and produces two
difference lists: records of A whose key does not occur in B and records of B
whose key does not occur in A.  The two lists are key-disjoint, a record
whose key occurs in both inputs appears in neither, every A-key missing from
B is represented in the first list, and every B-key missing from A is
represented in the second.  (The embedding is a pure function of its
arguments, matching the code, which only reads `site_recs` and
`json_recs`.) -/
theorem comparator_normalized_difference (A B : List CmpRec) :
    (compare_sets A B).1 = A.length
    ∧ (compare_sets A B).2.1 = B.length
    ∧ (∀ x ∈ (compare_sets A B).2.2.1,
        x ∈ A ∧ normKey x.statement ∉ keysOf B)
    ∧ (∀ y ∈ (compare_sets A B).2.2.2,
        y ∈ B ∧ normKey y.statement ∉ keysOf A)
    ∧ (∀ x ∈ (compare_sets A B).2.2.1, ∀ y ∈ (compare_sets A B).2.2.2,
        normKey x.statement ≠ normKey y.statement)
    ∧ (∀ a ∈ A, normKey a.statement ∈ keysOf B →
        (∀ x ∈ (compare_sets A B).2.2.1,
          normKey x.statement ≠ normKey a.statement)
        ∧ (∀ y ∈ (compare_sets A B).2.2.2,
          normKey y.statement ≠ normKey a.statement))
    ∧ (∀ a ∈ A, normKey a.statement ∉ keysOf B →
        ∃ x ∈ (compare_sets A B).2.2.1,
          normKey x.statement = normKey a.statement)
    ∧ (∀ b ∈ B, normKey b.statement ∉ keysOf A →
        ∃ y ∈ (compare_sets A B).2.2.2,
          normKey y.statement = normKey b.statement) := by
  refine ⟨rfl, rfl, compare_sets_mem_left A B, compare_sets_mem_right A B,
    ?_, ?_, ?_, ?_⟩
  · intro x hx y hy heq
    have hxB := (compare_sets_mem_left A B x hx).2
    have hyB : normKey y.statement ∈ keysOf B :=
      List.mem_map_of_mem _ (compare_sets_mem_right A B y hy).1
    exact hxB (heq ▸ hyB)
  · intro a ha hainB
    constructor
    · intro x hx heq
      exact (compare_sets_mem_left A B x hx).2 (heq ▸ hainB)
    · intro y hy heq
      have haA : normKey a.statement ∈ keysOf A := List.mem_map_of_mem _ ha
      exact (compare_sets_mem_right A B y hy).2 (heq ▸ haA)
  · intro a ha hnb
    have hk1 : normKey a.statement ∈ keysOf A := List.mem_map_of_mem _ ha
    have hk2 : normKey a.statement ∈ dedupKeys A := List.mem_dedup.mpr hk1
    have hkfil : normKey a.statement ∈
        (dedupKeys A).filter (fun k => ¬ k ∈ keysOf B) :=
      List.mem_filter.mpr ⟨hk2, by simpa using hnb⟩
    have hfl : A.filter
        (fun r => normKey r.statement = normKey a.statement) ≠ [] := by
      intro hemp
      have hmem : a ∈ A.filter
          (fun r => normKey r.statement = normKey a.statement) :=
        List.mem_filter.mpr ⟨ha, by simp⟩
      rw [hemp] at hmem
      simp at hmem
    obtain ⟨x, hx⟩ :=
      Option.isSome_iff_exists.mp (List.getLast?_isSome.mpr hfl)
    refine ⟨x, ?_, (lastWithKey_mem A (normKey a.statement) x hx).2⟩
    rw [compare_sets_eq]
    exact List.mem_filterMap.mpr ⟨normKey a.statement, hkfil, hx⟩
  · intro b hb hna
    have hk1 : normKey b.statement ∈ keysOf B := List.mem_map_of_mem _ hb
    have hk2 : normKey b.statement ∈ dedupKeys B := List.mem_dedup.mpr hk1
    have hkfil : normKey b.statement ∈
        (dedupKeys B).filter (fun k => ¬ k ∈ keysOf A) :=
      List.mem_filter.mpr ⟨hk2, by simpa using hna⟩
    have hfl : B.filter
        (fun r => normKey r.statement = normKey b.statement) ≠ [] := by
      intro hemp
      have hmem : b ∈ B.filter
          (fun r => normKey r.statement = normKey b.statement) :=
        List.mem_filter.mpr ⟨hb, by simp⟩
      rw [hemp] at hmem
      simp at hmem
    obtain ⟨y, hy⟩ :=
      Option.isSome_iff_exists.mp (List.getLast?_isSome.mpr hfl)
    refine ⟨y, ?_, (lastWithKey_mem B (normKey b.statement) y hy).2⟩
    rw [compare_sets_eq]
    exact List.mem_filterMap.mpr ⟨normKey b.statement, hkfil, hy⟩

/-- A site record for the comparator witness (its key is `"alpha"`). -/
def w9A : CmpRec := ⟨"NCT0001", " Alpha "⟩

/-- A JSON record for the comparator witness (its key is `"beta"`). -/
def w9B : CmpRec := ⟨"NCT0001", "beta"⟩

/-- Witness for C9: on the concrete one-record inputs the two output lists
carry distinct keys. -/
theorem comparator_normalized_difference_witness :
    normKey w9A.statement ≠ normKey w9B.statement := by
  exact (comparator_normalized_difference [w9A] [w9B]).2.2.2.2.1 w9A
    (by decide) w9B (by decide)
